/-
Verification of the flow component-graph runtime (pkg/flow) and the
flowmode convert subcommand against its natural-language specification.

The definitions below are a shallow embedding of the Go source:
  * pkg/flow/flow.go   — Load, Run, reference, expressionsFromSyntaxBody
  * pkg/flow/node.go   — componentNode, newComponentNode, Set
  * flowmode (convert) — convert, hasErrorLevel, parseExtraArgs

External collaborators (the dag package, the nametable, the hcl parser,
the component registry, the pflag library) are not part of the source
tree; where a claim depends on them they are either taken as parameters
or modelled from the spec, as marked in each doc comment.
-/
import Mathlib

/-- Exported component state values are opaque to the core; they are
modelled as natural numbers. -/
abbrev Value := Nat

/-- A built component instance (rawcomponent.Component); the core only
reads its current exported state. -/
structure Component where
  currentState : Value
deriving DecidableEq, Repr

/-- Go type `reference []string` (flow.go line 168): an ordered list of
opaque name segments. -/
abbrev reference := List String

/-- Go method `reference.String` (flow.go lines 170-172): segments joined
by a dot. -/
def reference.String (r : reference) : String :=
  String.intercalate "." r

/-- An hcl.Traversal: the ordered name segments of a variable reference
appearing inside an expression. -/
abbrev Traversal := List String

/-- A decoded hclsyntax.Body: attribute expressions (each contributing a
list of traversals via Expr.Variables()) and nested blocks. -/
inductive Body where
  | mk : List (List Traversal) → List Body → Body

/-- A decoded hcl.Block: a kind tag (Go field `Type`, written `typ` here
because `type` is reserved), labels, and a body. -/
structure Block where
  typ : String
  labels : List String
  body : Body

/-- Go `componentNode` (node.go lines 16-21): reference, source block and
the lazily-set raw component (`none` until Load builds it). -/
structure componentNode where
  ref : reference
  block : Block
  raw : Option Component

/-- Go `newComponentNode` (node.go lines 26-35): the reference is the
block kind followed by the labels; `raw` starts unset. -/
def newComponentNode (b : Block) : componentNode :=
  { ref := b.typ :: b.labels, block := b, raw := none }

/-- The kind path handed to the external builder (flow.go line 144):
`cn.ref[:len(cn.ref)-1]`, all segments but the last. -/
def componentID (cn : componentNode) : reference :=
  cn.ref.take (cn.ref.length - 1)

mutual

/-- Go `expressionsFromSyntaxBody` (flow.go lines 176-187): collect every
attribute expression's variable traversals, then recurse into nested
blocks depth-first. -/
def expressionsFromSyntaxBody : Body → List Traversal
  | .mk attrs blocks => attrs.flatten ++ expressionsFromBodies blocks

/-- Helper for the recursion of `expressionsFromSyntaxBody` over the
nested block list. -/
def expressionsFromBodies : List Body → List Traversal
  | [] => []
  | b :: bs => expressionsFromSyntaxBody b ++ expressionsFromBodies bs

end

/-- Graph edges, `From → To` meaning From depends on To; the dag package
stores them with forward and reverse indices. -/
abbrev EdgeList := List (reference × reference)

/-- Modelled from the spec: `dag.Graph.Dependencies` is not under src/;
per §4.1 it returns the direct forward neighbours of a node, i.e. the
targets of the edges leaving it. -/
def Dependencies (edges : EdgeList) (n : reference) : List reference :=
  (edges.filter (fun e => e.1 == n)).map (fun e => e.2)

/-- Modelled from the spec: `dag.Graph.Dependants` is not under src/;
per §4.1 it returns the direct reverse neighbours of a node, i.e. the
sources of the edges entering it. -/
def Dependants (edges : EdgeList) (n : reference) : List reference :=
  (edges.filter (fun e => e.2 == n)).map (fun e => e.1)

/-- An hcl.EvalContext: variable bindings plus the built-in function
table (function names suffice for the model). -/
structure EvalCtxData where
  vars : List (String × Value)
  functions : List String
deriving DecidableEq, Repr

/-- A possibly-nil EvalContext; `none` is the sentinel a node with no
dependencies receives. -/
abbrev EvalContext := Option EvalCtxData

/-- Modelled from the spec: `nametable.BuildEvalContext` is not under
src/; per §4.2 it binds each dependency's name to that dependency's
current exported value, and returns the nil sentinel when there are no
dependencies. -/
def BuildEvalContext (st : reference → Value) (deps : List reference) : EvalContext :=
  if deps.isEmpty then none
  else some { vars := deps.map (fun d => (reference.String d, st d)), functions := [] }

/-- The `if ectx != nil, ectx.Functions = funcMap` assignment performed by
Load and Run (flow.go lines 135-137 and 252-254); the function map holds
exactly `concat`. -/
def setFunctions (e : EvalContext) : EvalContext :=
  match e with
  | none => none
  | some d => some { d with functions := ["concat"] }

/-- The events of Run's startup phase (flow.go lines 202-226): take the
graph lock, start workers one by one, then either release the lock or
return an error (note the code returns with the lock still held). -/
inductive RunEvt where
  | lock
  | startWorker (r : reference)
  | unlock
  | errReturn (msg : String)
deriving DecidableEq, Repr

/-- The per-node loop of Run's startup (flow.go lines 203-225): for each
node in order, return an error if its raw component is nil, otherwise
start a worker goroutine for it; unlock after the loop. -/
def startLoop : List componentNode → List RunEvt
  | [] => [RunEvt.unlock]
  | cn :: rest =>
    match cn.raw with
    | none =>
        [RunEvt.errReturn ("componentNode \"" ++ reference.String cn.ref ++ "\" not initialized")]
    | some _ => RunEvt.startWorker cn.ref :: startLoop rest

/-- Run's startup phase (flow.go lines 202-226): lock, then the per-node
loop. -/
def runStartup (nodes : List componentNode) : List RunEvt :=
  RunEvt.lock :: startLoop nodes

/-- The arbiter's state shared with the notification callbacks: the
`updated` sync.Map (as the list of stored keys) and the number of tokens
buffered in the capacity-1 `refreshCh`. -/
structure NotifyState where
  updated : List reference
  tokens : Nat
deriving DecidableEq, Repr

/-- The `updated.Store(cn, struct)` step of the callback (flow.go line
214): sync.Map.Store has set semantics on keys. -/
def storeUpdated (s : NotifyState) (cn : reference) : NotifyState :=
  if s.updated.contains cn then s else { s with updated := s.updated ++ [cn] }

/-- The notification callback handed to each worker (flow.go lines
213-220): first store the calling node into `updated`, then send a token
on the capacity-1 channel with a `default` branch, so the send drops the
token when the buffer is full and the callback never blocks (it is a
total function of the state). -/
def notify (cn : reference) (s : NotifyState) : NotifyState :=
  if (storeUpdated s cn).tokens < 1 then
    { storeUpdated s cn with tokens := (storeUpdated s cn).tokens + 1 }
  else storeUpdated s cn

/-- The per-dependant update loop run for one drained node (flow.go lines
244-260): for each direct dependant, rebuild an EvalContext from that
dependant's own direct dependencies and invoke `raw.Update`; a failed
update is logged and skipped with `continue`. `updRes` gives each
dependant's Update result (`some msg` = error), standing for the external
component's behaviour. Returns the Update invocations made (dependant and
the EvalContext handed to it) and the error log lines. -/
def updateLoop (edges : EdgeList) (st : reference → Value) (updRes : reference → Option String) :
    List reference → List (reference × EvalContext) × List String
  | [] => ([], [])
  | d :: ds =>
    let ectx := setFunctions (BuildEvalContext st (Dependencies edges d))
    let rest := updateLoop edges st updRes ds
    match updRes d with
    | some e =>
        ((d, ectx) :: rest.1,
          ("failed to update node " ++ reference.String d ++ ": " ++ e) :: rest.2)
    | none => ((d, ectx) :: rest.1, rest.2)

/-- Processing of one node drained from the updated set (flow.go lines
233-263): update its direct dependants. -/
def refreshStep (edges : EdgeList) (st : reference → Value)
    (updRes : reference → Option String) (x : reference) :
    List (reference × EvalContext) × List String :=
  updateLoop edges st updRes (Dependants edges x)

/-- The events the arbiter's select loop reacts to (flow.go lines
228-265): a context cancellation, or a token on `refreshCh` together with
the nodes drained from the updated set in that iteration. -/
inductive RunEvent where
  | cancel
  | refresh (drained : List reference)
deriving DecidableEq, Repr

/-- Recogniser for the cancellation event. -/
def isCancel : RunEvent → Bool
  | RunEvent.cancel => true
  | _ => false

/-- The arbiter's select loop (flow.go lines 228-265): on cancellation it
returns nil (modelled as `true` = returned); on a refresh token it drains
the updated set, processes each drained node, and loops. It returns the
termination flag and the error log lines it emitted. -/
def arbiterLoop (edges : EdgeList) (st : reference → Value)
    (updRes : reference → Option String) : List RunEvent → Bool × List String
  | [] => (false, [])
  | RunEvent.cancel :: _ => (true, [])
  | RunEvent.refresh xs :: rest =>
    let logs := (xs.map (fun x => (refreshStep edges st updRes x).2)).flatten
    let r := arbiterLoop edges st updRes rest
    (r.1, logs ++ r.2)

/-- The tail of a worker goroutine (flow.go lines 221-223): an error
returned by the component's Run is logged; the goroutine has no other
effect and nothing is propagated. -/
def workerLog (name : String) : Option String → List String
  | some e => ["node exited with error: " ++ name ++ ": " ++ e]
  | none => []

/-- Run's observable behaviour after a successful startup: worker exit
results (`workerRes`, standing for each component's Run result) only
contribute log lines; the arbiter loop alone decides the return. -/
def runModel (edges : EdgeList) (st : reference → Value)
    (workerRes : reference → Option String) (updRes : reference → Option String)
    (workers : List reference) (events : List RunEvent) : Bool × List String :=
  let wlogs := (workers.map (fun w => workerLog (reference.String w) (workerRes w))).flatten
  let r := arbiterLoop edges st updRes events
  (r.1, r.2 ++ wlogs)

/-- Severity of an hcl.Diagnostic as used by Load (hcl has error and
warning levels). -/
inductive HclSev where
  | diagError
  | diagWarning
deriving DecidableEq, Repr

/-- An hcl.Diagnostic. -/
structure HclDiag where
  severity : HclSev
  summary : String
deriving DecidableEq, Repr

/-- hcl.Diagnostics.HasErrors: true when some diagnostic has error
severity. -/
def hasErrorsH (ds : List HclDiag) : Bool :=
  ds.any (fun d => d.severity == HclSev.diagError)

/-- Does the reference match the traversal as a leading prefix,
segment by segment? -/
def refMatches : reference → Traversal → Bool
  | [], _ => true
  | _ :: _, [] => false
  | a :: as, b :: bs => a == b && refMatches as bs

/-- Modelled from the spec: the nametable's greedy longest-prefix match
over the registered references (§4.2); `none` when no registered
reference is a leading prefix of the traversal. Two distinct prefixes of
the same traversal cannot have equal length, so the longest match is
unambiguous. -/
def bestMatch : List reference → Traversal → Option reference
  | [], _ => none
  | r :: rs, t =>
    let rest := bestMatch rs t
    if refMatches r t then
      match rest with
      | none => some r
      | some b => if b.length > r.length then some b else some r
    else rest

/-- Modelled from the spec: `nametable.LookupTraversal` is not under
src/; per §4.2 it greedily matches the longest registered prefix,
returning nil with no diagnostic when nothing matches, and otherwise the
matched node together with the diagnostics of validating the remaining
suffix against the target's exported-state shape (`shapeCheck` stands
for that external validation). -/
def LookupTraversal (nt : List reference) (shapeCheck : reference → Traversal → List HclDiag)
    (t : Traversal) : Option reference × List HclDiag :=
  match bestMatch nt t with
  | none => (none, [])
  | some r => (some r, shapeCheck r (t.drop r.length))

/-- Bounded reachability along forward edges, used by the modelled dag
operations; `fuel` bounds the path length. -/
def reachableFuel (edges : EdgeList) : Nat → reference → reference → Bool
  | 0, _, _ => false
  | n + 1, src, tgt =>
    src == tgt || (edges.filter (fun e => e.1 == src)).any (fun e => reachableFuel edges n e.2 tgt)

/-- Modelled from the spec: `dag.Graph.AddEdge` is not under src/; per
§4.1 it fails on a self-edge, a missing endpoint, a duplicate, or when a
DFS from `to` reaches `from` (a cycle); flow.go line 106 ignores the
returned error, so a failed insertion simply leaves the edge set
unchanged. -/
def addEdge (nodes : List reference) (edges : EdgeList) (e : reference × reference) : EdgeList :=
  if e.1 == e.2 then edges
  else if !(nodes.contains e.1 && nodes.contains e.2) then edges
  else if edges.contains e then edges
  else if reachableFuel edges (edges.length + 1) e.2 e.1 then edges
  else edges ++ [e]

/-- Is there an alternative path of length at least two from the edge's
source to its target? -/
def hasAltPath (edges : EdgeList) (e : reference × reference) : Bool :=
  edges.any (fun d =>
    d.1 == e.1 && !(d.2 == e.2) && reachableFuel edges (edges.length + 1) d.2 e.2)

/-- Modelled from the spec: `dag.Reduce` is not under src/; per §4.1 the
transitive reduction removes every edge for which an alternative path of
length at least two exists. -/
def Reduce (edges : EdgeList) : EdgeList :=
  edges.filter (fun e => !(hasAltPath edges e))

/-- Processing of one traversal in Load's second pass (flow.go lines
98-107): look it up, extend the diagnostics, skip when the target is nil,
otherwise add the dependency edge. -/
def edgeStep (nt : List reference) (shapeCheck : reference → Traversal → List HclDiag)
    (nodes : List reference) (src : reference)
    (acc : EdgeList × List HclDiag) (t : Traversal) : EdgeList × List HclDiag :=
  match LookupTraversal nt shapeCheck t with
  | (none, lds) => (acc.1, acc.2 ++ lds)
  | (some tgt, lds) => (addEdge nodes acc.1 (src, tgt), acc.2 ++ lds)

/-- Load's second pass for one node (flow.go lines 92-108): fold
`edgeStep` over the node's expression traversals. -/
def edgesForNode (nt : List reference) (shapeCheck : reference → Traversal → List HclDiag)
    (nodes : List reference) (cn : componentNode)
    (acc : EdgeList × List HclDiag) : EdgeList × List HclDiag :=
  (expressionsFromSyntaxBody cn.block.body).foldl (edgeStep nt shapeCheck nodes cn.ref) acc

/-- Load's second pass over every node (flow.go lines 92-108). -/
def edgePass (nt : List reference) (shapeCheck : reference → Traversal → List HclDiag)
    (nodes : List reference) (comps : List componentNode)
    (acc : EdgeList × List HclDiag) : EdgeList × List HclDiag :=
  comps.foldl (fun a cn => edgesForNode nt shapeCheck nodes cn a) acc

/-- The state of a Flow instance (flow.go lines 27-34): the component
nodes of the graph, the edge set, and the nametable's registered
references. -/
structure FlowObj where
  comps : List componentNode
  edges : EdgeList
  nametable : List reference

/-- The state `New` creates (flow.go lines 37-45): empty graph, empty
nametable. -/
def emptyFlow : FlowObj :=
  { comps := [], edges := [], nametable := [] }

/-- The node-insertion loop of Load (flow.go lines 82-89): each content
block becomes a component node added to the graph and registered in the
nametable. `dag.Add` and `nametable.Add` are modelled from the spec
(§4.1/§4.2): they fail on a duplicate identity, and flow.go ignores the
failure, so a duplicate leaves the first node in place. -/
def addComponents (f : FlowObj) (blocks : List Block) : FlowObj :=
  blocks.foldl (fun fl b =>
    let cn := newComponentNode b
    let fl1 :=
      if fl.comps.any (fun c => c.ref == cn.ref) then fl
      else { fl with comps := fl.comps ++ [cn] }
    if fl1.nametable.contains cn.ref then fl1
    else { fl1 with nametable := fl1.nametable ++ [cn.ref] }) f

/-- The current exported state of the node with the given reference
(`cn.CurrentState()`, node.go lines 45-47); the 0 default stands for the
state of a node that is unknown or not yet built, which a true
topological order never reads. -/
def stateOf (comps : List componentNode) (r : reference) : Value :=
  match comps.find? (fun c => c.ref == r) with
  | some c =>
    match c.raw with
    | some comp => comp.currentState
    | none => 0
  | none => 0

/-- Go `componentNode.Set` applied to the node with the given reference
(node.go lines 49-51, invoked at flow.go line 150): the walk mutates the
one node object it found. -/
def setRaw : List componentNode → reference → Component → List componentNode
  | [], _, _ => []
  | cn :: rest, r, c =>
    if cn.ref == r then { cn with raw := some c } :: rest
    else cn :: setRaw rest r c

/-- The topological build walk of Load (flow.go lines 128-152).
Modelled from the spec: `dag.WalkTopological` and `Leaves` are not under
src/; per §4.1 the walk started from the leaves visits every node of the
graph exactly once, each node only after its dependencies, in an
unspecified deterministic order — the order is therefore a parameter
(`order`), constrained where a theorem needs the spec's coverage
guarantee. For each visited node the walk builds an EvalContext from the
node's direct dependencies, injects the built-in function table, invokes
the external builder (`builder`, given the kind path, the context and the
block), and assigns the result into the node; a builder error aborts the
walk. Returns the final nodes, the builder invocations made, and the
error if any. -/
def buildWalk (edges : EdgeList)
    (builder : String → EvalContext → Block → Except String Component) :
    List reference → List componentNode → List reference →
    List componentNode × List reference × Option String
  | [], comps, calls => (comps, calls, none)
  | r :: order, comps, calls =>
    match comps.find? (fun c => c.ref == r) with
    | none => buildWalk edges builder order comps calls
    | some cn =>
      let ectx := setFunctions (BuildEvalContext (stateOf comps) (Dependencies edges r))
      match builder (reference.String (componentID cn)) ectx cn.block with
      | .error e => (comps, calls, some e)
      | .ok rc => buildWalk edges builder order (setRaw comps r rc) (calls ++ [r])

/-- The error Load returns (flow.go lines 57-155): a file-read error, a
diagnostics bundle from one of the checkpoints, or a builder error. -/
inductive LoadErr where
  | readErr (msg : String)
  | diagsErr (ds : List HclDiag)
  | buildErr (msg : String)
deriving DecidableEq, Repr

/-- The outcomes of Load's external collaborators for one invocation:
the file read, the three decode stages' diagnostics and content blocks
(hclsyntax.ParseConfig, gohcl.DecodeBody, Content against the registry
schema), the nametable's shape validation, the walk order, and the
component builder. -/
structure LoadExt where
  readRes : Except String Unit
  parseDiags : List HclDiag
  decodeDiags : List HclDiag
  contentDiags : List HclDiag
  blocks : List Block
  shapeCheck : reference → Traversal → List HclDiag
  walkOrder : List reference
  builder : String → EvalContext → Block → Except String Component

/-- The result of Load: the Flow state after the call (mutations before
an abort are kept, as in the source), the builder invocations made, and
the returned error. -/
structure LoadOut where
  flow : FlowObj
  buildCalls : List reference
  err : Option LoadErr

/-- The graph-building phase of Load after the decode checkpoints
(flow.go lines 81-157): insert nodes and nametable entries, wire edges in
a second pass, abort when the accumulated diagnostics contain an error,
reduce the graph, and walk topologically invoking the builder for every
node. `diags3` carries the diagnostics accumulated by the checkpoints. -/
def loadGraphPhase (f : FlowObj) (ext : LoadExt) (diags3 : List HclDiag) : LoadOut :=
  let f1 := addComponents f ext.blocks
  let nodes := f1.comps.map (fun c => c.ref)
  let ed := edgePass f1.nametable ext.shapeCheck nodes f1.comps (f1.edges, diags3)
  let f2 := { f1 with edges := ed.1 }
  if hasErrorsH ed.2 then ⟨f2, [], some (LoadErr.diagsErr ed.2)⟩ else
  let f3 := { f2 with edges := Reduce f2.edges }
  let bw := buildWalk f3.edges ext.builder ext.walkOrder f3.comps []
  let f4 := { f3 with comps := bw.1 }
  match bw.2.2 with
  | some e => ⟨f4, bw.2.1, some (LoadErr.buildErr e)⟩
  | none => ⟨f4, bw.2.1, none⟩

/-- Go `Flow.Load` (flow.go lines 48-158): read the file, parse, decode
the root block, match the remaining content against the registry schema
— aborting at each checkpoint when the accumulated diagnostics contain an
error — then run the graph-building phase. -/
def Load (f : FlowObj) (ext : LoadExt) : LoadOut :=
  match ext.readRes with
  | .error e => ⟨f, [], some (LoadErr.readErr e)⟩
  | .ok _ =>
    let diags1 := ext.parseDiags
    if hasErrorsH diags1 then ⟨f, [], some (LoadErr.diagsErr diags1)⟩ else
    let diags2 := diags1 ++ ext.decodeDiags
    if hasErrorsH diags2 then ⟨f, [], some (LoadErr.diagsErr diags2)⟩ else
    let diags3 := diags2 ++ ext.contentDiags
    if hasErrorsH diags3 then ⟨f, [], some (LoadErr.diagsErr diags3)⟩ else
    loadGraphPhase f ext diags3

/-- Is the raw component of the (first) node carrying the given
reference set? False when no node carries it. -/
def rawSet (comps : List componentNode) (r : reference) : Bool :=
  match comps.find? (fun c => c.ref == r) with
  | some cn => cn.raw.isSome
  | none => false

/-- Severity of a converter diagnostic (converter/diag): warning, error
or critical. -/
inductive Severity where
  | warn
  | error
  | critical
deriving DecidableEq, Repr

/-- A converter diagnostic. -/
structure Diagnostic where
  severity : Severity
  summary : String
deriving DecidableEq, Repr

/-- Go `hasErrorLevel` (flowmode lines 173-181): true when some
diagnostic carries the given severity. -/
def hasErrorLevel (ds : List Diagnostic) (sev : Severity) : Bool :=
  ds.any (fun d => d.severity == sev)

/-- Go `flowConvert` (flowmode lines 84-90): the convert subcommand's
flags. -/
structure flowConvert where
  output : String
  report : String
  sourceFormat : String
  bypassErrors : Bool
  extraArgs : String

/-- Whitespace per Go's unicode.IsSpace, restricted to the ASCII space
characters (the model treats strings as sequences of characters). -/
def goIsSpace (c : Char) : Bool :=
  c == ' ' || c == '\t' || c == '\n' || c == '\x0B' || c == '\x0C' || c == '\r'

/-- Accumulating worker for `goFields`; `acc` holds the current field
reversed. -/
def fieldsAux : List Char → List Char → List String
  | [], acc => if acc.isEmpty then [] else [⟨acc.reverse⟩]
  | c :: cs, acc =>
    if goIsSpace c then
      if acc.isEmpty then fieldsAux cs [] else ⟨acc.reverse⟩ :: fieldsAux cs []
    else fieldsAux cs (c :: acc)

/-- Go strings.Fields: split around runs of white space, dropping empty
fields. -/
def goFields (s : String) : List String :=
  fieldsAux s.data []

/-- Split a character list at the first `=`, keeping the remainder. -/
def splitCharsEq : List Char → List Char × Option (List Char)
  | [] => ([], none)
  | c :: cs =>
    if c == '=' then ([], some cs)
    else
      let r := splitCharsEq cs
      (c :: r.1, r.2)

/-- Go strings.SplitN(s, "=", 2): one or two pieces. -/
def goSplitN2Eq (s : String) : List String :=
  match splitCharsEq s.data with
  | (a, none) => [⟨a⟩]
  | (a, some b) => [⟨a⟩, ⟨b⟩]

/-- Go slice expression s[k:], which panics (returns `none`) when k is
beyond the length. -/
def goSliceFrom (s : String) (k : Nat) : Option String :=
  if k ≤ s.data.length then some ⟨s.data.drop k⟩ else none

/-- Go string indexing s[k], which panics (returns `none`) out of
range. -/
def goCharAt (s : String) (k : Nat) : Option Char :=
  s.data.get? k

/-- A pflag string-flag binding: the Go code binds a pointer into the
`result` slice's backing array, modelled as the element index plus the
backing-array generation current at binding time (a later append that
reallocates the slice makes the pointer — and so the binding — write to
the stale array, with no effect on the returned slice). -/
structure FlagBinding where
  idx : Nat
  gen : Nat
deriving DecidableEq, Repr

/-- Modelled from the behaviour of the external pflag library: the
registered flags, by long name and by shorthand character. -/
structure FlagSet where
  longs : List (String × FlagBinding)
  shorts : List (Char × FlagBinding)
deriving DecidableEq, Repr

/-- A Go []string with enough of the append semantics to track pointer
staleness: the elements, the capacity and a generation counter bumped at
every reallocation (append doubles the capacity, starting at 1). -/
structure GoStrSlice where
  data : List String
  cap : Nat
  gen : Nat
deriving DecidableEq, Repr

/-- Go append of one element. -/
def GoStrSlice.push (s : GoStrSlice) (x : String) : GoStrSlice :=
  if s.data.length < s.cap then { s with data := s.data ++ [x] }
  else { data := s.data ++ [x], cap := if s.cap == 0 then 1 else 2 * s.cap, gen := s.gen + 1 }

/-- Modelled from the behaviour of the external pflag library:
FlagSet.AddFlag panics (`none`) on a duplicate long name, a shorthand
longer than one character, or a duplicate shorthand; otherwise it
registers the binding under the name and, when present, the shorthand. -/
def regFlag (fs : FlagSet) (name : String) (shorthand : String) (b : FlagBinding) :
    Option FlagSet :=
  if fs.longs.any (fun p => p.1 == name) then none
  else
    let fs1 := { fs with longs := fs.longs ++ [(name, b)] }
    if shorthand == "" then some fs1
    else if shorthand.data.length > 1 then none
    else
      match shorthand.data.head? with
      | none => some fs1
      | some c =>
        if fs1.shorts.any (fun p => p.1 == c) then none
        else some { fs1 with shorts := fs1.shorts ++ [(c, b)] }

/-- The mutable state of parseExtraArgs' loop: the `result` slice and the
flag set. -/
structure ParseState where
  result : GoStrSlice
  fs : FlagSet
deriving DecidableEq, Repr

/-- One iteration of the loop in Go `parseExtraArgs` (flowmode lines
199-216) for argument `arg` at index `i`. The code reads `arg[1]` with no
length check and slices `split[i]` with the loop index, so both can panic
(`none`). A flag/value argument appends the name part, appends an empty
slot, and registers a pflag string flag bound to that slot (long name
`split[i][2:]` in the `--` branch, shorthand `split[i][1:]` otherwise). -/
def loopStep (i : Nat) (arg : String) (st : ParseState) : Option ParseState :=
  match goCharAt arg 1 with
  | none => none
  | some c1 =>
    let sp := goSplitN2Eq arg
    let r1 := st.result.push (sp.headD "")
    if sp.length == 2 && !(sp.getD 1 "" == "") then
      let r2 := r1.push ""
      let b : FlagBinding := { idx := r2.data.length - 1, gen := r2.gen }
      match sp.get? i with
      | none => none
      | some si =>
        if c1 == '-' then
          match goSliceFrom si 2 with
          | none => none
          | some name =>
            match regFlag st.fs name "" b with
            | none => none
            | some fs' => some { result := r2, fs := fs' }
        else
          match goSliceFrom si 1 with
          | none => none
          | some shorthand =>
            match regFlag st.fs "" shorthand b with
            | none => none
            | some fs' => some { result := r2, fs := fs' }
    else some { st with result := r1 }

/-- The loop of Go `parseExtraArgs` over the indexed arguments. -/
def runLoopSteps : List (Nat × String) → ParseState → Option ParseState
  | [], st => some st
  | (i, a) :: rest, st =>
    match loopStep i a st with
    | none => none
    | some st' => runLoopSteps rest st'

/-- A registered binding writes through its pointer: the value lands in
the returned slice only when the backing array has not been reallocated
since the binding was taken. -/
def writeBinding (slice : GoStrSlice) (b : FlagBinding) (v : String) : GoStrSlice :=
  if b.gen == slice.gen then { slice with data := slice.data.set b.idx v } else slice

/-- Modelled from the behaviour of the external pflag library:
stripUnknownFlagValue consumes the next argument as the unknown flag's
value unless it looks like another flag. -/
def stripUnknown (args : List String) : List String :=
  match args with
  | [] => []
  | v :: rest => if v.data.head? == some '-' then v :: rest else rest

/-- Modelled from the behaviour of the external pflag library: parsing
one shorthand token's characters (after the leading dash), threading the
result slice and the remaining arguments; `none` models an os.Exit on a
parse error or the help flag. -/
def shortLoop (fs : FlagSet) : GoStrSlice → List Char → List String →
    Option (GoStrSlice × List String)
  | slice, [], args => some (slice, args)
  | slice, c :: cs, args =>
    match fs.shorts.find? (fun p => p.1 == c) with
    | some pb =>
      if cs.head? == some '=' && decide (cs.length ≥ 2) then
        some (writeBinding slice pb.2 ⟨cs.drop 1⟩, args)
      else if decide (cs.length ≥ 1) then
        some (writeBinding slice pb.2 ⟨cs⟩, args)
      else
        match args with
        | [] => none
        | v :: args' => some (writeBinding slice pb.2 v, args')
    | none =>
      if c == 'h' then none
      else if cs.head? == some '=' && decide (cs.length ≥ 2) then some (slice, args)
      else shortLoop fs slice cs (stripUnknown args)

/-- Modelled from the behaviour of the external pflag library
(ErrorHandling = ExitOnError, ParseErrorsWhitelist.UnknownFlags = true):
FlagSet.Parse over the arguments — positionals and `--` pass through,
registered flags have their value written through the binding, unknown
flags are skipped, and bad syntax, a missing value or the help flag make
the process exit (`none`). The fuel is at least the argument count plus
one, so it never runs out. -/
def pflagParse (fs : FlagSet) : Nat → GoStrSlice → List String → Option GoStrSlice
  | 0, _, _ => none
  | _ + 1, slice, [] => some slice
  | fuel + 1, slice, a :: rest =>
    let cs := a.data
    if decide (cs.length ≤ 1) || !(cs.head? == some '-') then pflagParse fs fuel slice rest
    else if cs.get? 1 == some '-' then
      if cs.length == 2 then some slice
      else
        let body := cs.drop 2
        if body.head? == some '-' || body.head? == some '=' then none
        else
          match splitCharsEq body with
          | (nm, none) =>
            let name : String := ⟨nm⟩
            match fs.longs.find? (fun p => p.1 == name) with
            | some pb =>
              match rest with
              | [] => none
              | v :: rest' => pflagParse fs fuel (writeBinding slice pb.2 v) rest'
            | none =>
              if name == "help" then none
              else pflagParse fs fuel slice (stripUnknown rest)
          | (nm, some vcs) =>
            let name : String := ⟨nm⟩
            match fs.longs.find? (fun p => p.1 == name) with
            | some pb => pflagParse fs fuel (writeBinding slice pb.2 ⟨vcs⟩) rest
            | none =>
              if name == "help" then none
              else pflagParse fs fuel slice rest
    else
      match shortLoop fs slice (cs.drop 1) rest with
      | none => none
      | some sr => pflagParse fs fuel sr.1 sr.2

/-- Go `parseExtraArgs` (flowmode lines 191-221): the empty string yields
the nil slice; otherwise split into fields, run the flag-collection loop
(which can panic, `none`), then run pflag's Parse over the same
arguments (which can exit, `none`; with ExitOnError a returned error is
impossible, so the function's error result is always nil when it
returns). -/
def parseExtraArgs (extraArgs : String) : Option (List String) :=
  if extraArgs == "" then some []
  else
    let arguments := goFields extraArgs
    match runLoopSteps arguments.enum ⟨⟨[], 0, 0⟩, ⟨[], []⟩⟩ with
    | none => none
    | some st =>
      match pflagParse st.fs (arguments.length + 1) st.result arguments with
      | none => none
      | some slice => some slice.data

/-- The observable outcome of the convert pipeline: a panic/exit, an
early non-diagnostic error, the diagnostics returned as the error
(output suppressed), or the output bytes written to the destination
(empty destination = standard output). -/
inductive ConvOutcome where
  | crash
  | errEarly (msg : String)
  | errDiags (ds : List Diagnostic)
  | wrote (dest : String) (bs : String)
deriving DecidableEq, Repr

/-- Go `convert` (flowmode lines 117-156): read the input (`readRes`),
parse the extra arguments, run the external converter (`conv`, given the
input bytes, the source format and the extra arguments), generate the
report when `-r` was set (`reportOk` stands for the file creation and
report writing), then return the diagnostics as the error when a critical
is present or an error is present without the bypass flag; otherwise
write the output (`writeOk` stands for the destination file creation and
copy). -/
def convert (readRes : Except String String)
    (conv : String → String → List String → String × List Diagnostic)
    (reportOk : Bool) (writeOk : Bool) (fc : flowConvert) : ConvOutcome :=
  match readRes with
  | .error e => ConvOutcome.errEarly e
  | .ok inputBytes =>
    match parseExtraArgs fc.extraArgs with
    | none => ConvOutcome.crash
    | some ea =>
      let out := conv inputBytes fc.sourceFormat ea
      if !(fc.report == "") && !reportOk then ConvOutcome.errEarly "report failed"
      else
        let hasError := hasErrorLevel out.2 Severity.error
        let hasCritical := hasErrorLevel out.2 Severity.critical
        if hasCritical || (!fc.bypassErrors && hasError) then ConvOutcome.errDiags out.2
        else if writeOk then ConvOutcome.wrote fc.output out.1
        else ConvOutcome.errEarly "write failed"

/-
Theorems. Each claim of the specification is settled by exactly one
theorem below (with a witness instantiation where the theorem carries
hypotheses, and a counterexample where the claim fails on the code).
-/

/-- C10: a component block declared with zero labels yields a node whose
reference has exactly one segment (the block kind); the kind path passed
to the external builder — all segments but the last — is the empty
reference, whose string form is the empty string. -/
theorem zero_label_component_id (b : Block) (h : b.labels = []) :
    (newComponentNode b).ref = [b.typ] ∧
    (newComponentNode b).ref.length = 1 ∧
    componentID (newComponentNode b) = [] ∧
    reference.String (componentID (newComponentNode b)) = "" := by
  simp [newComponentNode, componentID, reference.String, h, String.intercalate]

/-- Witness for C10 at a concrete zero-label block. -/
theorem zero_label_component_id_witness :
    (newComponentNode ⟨"metrics", [], Body.mk [] []⟩).ref = ["metrics"] ∧
    (newComponentNode ⟨"metrics", [], Body.mk [] []⟩).ref.length = 1 ∧
    componentID (newComponentNode ⟨"metrics", [], Body.mk [] []⟩) = [] ∧
    reference.String (componentID (newComponentNode ⟨"metrics", [], Body.mk [] []⟩)) = "" :=
  zero_label_component_id ⟨"metrics", [], Body.mk [] []⟩ rfl

/-- C7: the notification callback first records the calling node into the
updated set and then sends on the capacity-1 refresh channel through a
select with a default branch (the model is a total function: the
callback cannot block). Starting from any reachable channel state (at
most one buffered token), after the callback the caller and every
previously stored node are in the updated set and exactly one token is
pending, so one drain observes every node stored before the send. -/
theorem notify_callback_behaviour (s : NotifyState) (cn : reference)
    (h : s.tokens ≤ 1) :
    cn ∈ (notify cn s).updated ∧
    (∀ x ∈ s.updated, x ∈ (notify cn s).updated) ∧
    (notify cn s).tokens = 1 := by
  have hupd : (notify cn s).updated = (storeUpdated s cn).updated := by
    unfold notify
    split <;> rfl
  have hmem : cn ∈ (storeUpdated s cn).updated := by
    unfold storeUpdated
    split
    · next hc => exact List.mem_of_elem_eq_true hc
    · simp
  have hold : ∀ x ∈ s.updated, x ∈ (storeUpdated s cn).updated := by
    intro x hx
    unfold storeUpdated
    split
    · exact hx
    · simp [hx]
  have htok1 : (storeUpdated s cn).tokens = s.tokens := by
    unfold storeUpdated
    split <;> rfl
  refine ⟨hupd ▸ hmem, fun x hx => hupd ▸ hold x hx, ?_⟩
  unfold notify
  split
  · next hlt =>
    simp only [NotifyState.mk.injEq]
    rw [htok1] at hlt
    simp [htok1]
    omega
  · next hge =>
    rw [htok1] at hge
    rw [htok1]
    omega

/-- Witness for C7: a fresh state with an empty channel. -/
theorem notify_callback_behaviour_witness :
    ["s"] ∈ (notify ["s"] ⟨[], 0⟩).updated ∧ (notify ["s"] ⟨[], 0⟩).tokens = 1 :=
  ⟨(notify_callback_behaviour ⟨[], 0⟩ ["s"] (by decide)).1,
    (notify_callback_behaviour ⟨[], 0⟩ ["s"] (by decide)).2.2⟩

/-- C9: the claim says parseExtraArgs splits any extra-args string and
returns the flag-name and value parts without panicking; but the code
reads `arg[1]` with no length check, so the one-character argument "a"
makes it panic with an index-out-of-range (modelled as `none`), while the
empty string deviates in no way (nil result, nil error). -/
theorem parseExtraArgs_short_token_panics :
    parseExtraArgs "a" = none ∧ parseExtraArgs "" = some [] := by
  constructor <;> rfl

/-- C3: in the convert pipeline, once the input is read, the extra
arguments parse and the report stage succeeds, the converted output is
suppressed — the function returns the diagnostics as the error — if and
only if a critical diagnostic is present, or an error diagnostic is
present and the bypass flag is not set; and when the condition fails and
writing succeeds, the output bytes are written to the destination. -/
theorem convert_suppression (conv : String → String → List String → String × List Diagnostic)
    (reportOk writeOk : Bool) (fc : flowConvert) (ib : String) (ea : List String)
    (hea : parseExtraArgs fc.extraArgs = some ea)
    (hrep : fc.report = "" ∨ reportOk = true) :
    (convert (.ok ib) conv reportOk writeOk fc =
        ConvOutcome.errDiags (conv ib fc.sourceFormat ea).2 ↔
      (hasErrorLevel (conv ib fc.sourceFormat ea).2 Severity.critical ||
        (!fc.bypassErrors && hasErrorLevel (conv ib fc.sourceFormat ea).2 Severity.error)) = true) ∧
    ((hasErrorLevel (conv ib fc.sourceFormat ea).2 Severity.critical ||
        (!fc.bypassErrors && hasErrorLevel (conv ib fc.sourceFormat ea).2 Severity.error)) = false →
      writeOk = true →
      convert (.ok ib) conv reportOk writeOk fc =
        ConvOutcome.wrote fc.output (conv ib fc.sourceFormat ea).1) := by
  have hrep' : (!(fc.report == "") && !reportOk) = false := by
    rcases hrep with h | h <;> simp [h]
  constructor
  · constructor
    · intro hconv
      by_contra hcond
      simp only [convert, hea, hrep'] at hconv
      rw [Bool.not_eq_true] at hcond
      simp only [hcond] at hconv
      rcases Bool.eq_false_or_eq_true writeOk with hw | hw <;> simp [hw] at hconv
    · intro hcond
      simp only [convert, hea, hrep', hcond]
      simp
  · intro hcond hw
    simp only [convert, hea, hrep', hcond, hw]
    simp

/-- Witness for C3: a critical diagnostic suppresses the output, and with
clean diagnostics the output is written. -/
theorem convert_suppression_witness :
    convert (.ok "in") (fun _ _ _ => ("out", [⟨Severity.critical, "boom"⟩])) true true
        ⟨"", "", "promtail", false, ""⟩ =
      ConvOutcome.errDiags [⟨Severity.critical, "boom"⟩] ∧
    convert (.ok "in") (fun _ _ _ => ("out", [])) true true
        ⟨"", "", "promtail", false, ""⟩ =
      ConvOutcome.wrote "" "out" :=
  ⟨(convert_suppression (fun _ _ _ => ("out", [⟨Severity.critical, "boom"⟩])) true true
      ⟨"", "", "promtail", false, ""⟩ "in" [] rfl (Or.inl rfl)).1.mpr (by decide),
   (convert_suppression (fun _ _ _ => ("out", [])) true true
      ⟨"", "", "promtail", false, ""⟩ "in" [] rfl (Or.inl rfl)).2 (by decide) rfl⟩

/-- C4: when the file was read but parsing the configuration or decoding
the top-level block produced an error diagnostic, Load returns those
diagnostics at the checkpoint: the Flow state — graph, edges and
nametable — is unchanged, no node is inserted and no builder is
invoked. -/
theorem load_parse_decode_atomic (f : FlowObj) (ext : LoadExt) (u : Unit)
    (hread : ext.readRes = .ok u)
    (herr : hasErrorsH ext.parseDiags = true ∨ hasErrorsH ext.decodeDiags = true) :
    (Load f ext).flow = f ∧ (Load f ext).buildCalls = [] ∧
    ((Load f ext).err = some (LoadErr.diagsErr ext.parseDiags) ∨
     (Load f ext).err = some (LoadErr.diagsErr (ext.parseDiags ++ ext.decodeDiags))) := by
  have happ : hasErrorsH (ext.parseDiags ++ ext.decodeDiags) =
      (hasErrorsH ext.parseDiags || hasErrorsH ext.decodeDiags) := by
    simp [hasErrorsH, List.any_append]
  by_cases h1 : hasErrorsH ext.parseDiags = true
  · simp [Load, hread, h1]
  · have h2 : hasErrorsH ext.decodeDiags = true := by
      rcases herr with h | h
      · exact absurd h h1
      · exact h
    have h12 : hasErrorsH (ext.parseDiags ++ ext.decodeDiags) = true := by
      rw [happ, h2]
      simp
    simp [Load, hread, h1, h12]

/-- Witness for C4: a parse-stage error diagnostic aborts Load with the
graph and nametable empty as before the call. -/
theorem load_parse_decode_atomic_witness :
    (Load emptyFlow
      { readRes := .ok (), parseDiags := [⟨HclSev.diagError, "parse boom"⟩],
        decodeDiags := [], contentDiags := [], blocks := [⟨"a", [], Body.mk [] []⟩],
        shapeCheck := fun _ _ => [], walkOrder := [],
        builder := fun _ _ _ => .ok ⟨0⟩ }).flow = emptyFlow ∧
    (Load emptyFlow
      { readRes := .ok (), parseDiags := [⟨HclSev.diagError, "parse boom"⟩],
        decodeDiags := [], contentDiags := [], blocks := [⟨"a", [], Body.mk [] []⟩],
        shapeCheck := fun _ _ => [], walkOrder := [],
        builder := fun _ _ _ => .ok ⟨0⟩ }).buildCalls = [] ∧
    ((Load emptyFlow
      { readRes := .ok (), parseDiags := [⟨HclSev.diagError, "parse boom"⟩],
        decodeDiags := [], contentDiags := [], blocks := [⟨"a", [], Body.mk [] []⟩],
        shapeCheck := fun _ _ => [], walkOrder := [],
        builder := fun _ _ _ => .ok ⟨0⟩ }).err =
        some (LoadErr.diagsErr [⟨HclSev.diagError, "parse boom"⟩]) ∨
     (Load emptyFlow
      { readRes := .ok (), parseDiags := [⟨HclSev.diagError, "parse boom"⟩],
        decodeDiags := [], contentDiags := [], blocks := [⟨"a", [], Body.mk [] []⟩],
        shapeCheck := fun _ _ => [], walkOrder := [],
        builder := fun _ _ _ => .ok ⟨0⟩ }).err =
        some (LoadErr.diagsErr ([⟨HclSev.diagError, "parse boom"⟩] ++ []))) :=
  load_parse_decode_atomic emptyFlow
    { readRes := .ok (), parseDiags := [⟨HclSev.diagError, "parse boom"⟩],
      decodeDiags := [], contentDiags := [], blocks := [⟨"a", [], Body.mk [] []⟩],
      shapeCheck := fun _ _ => [], walkOrder := [],
      builder := fun _ _ _ => .ok ⟨0⟩ } () rfl (Or.inl rfl)

/-- Helper: the dependants returned by the modelled graph index are
exactly the sources of the edges entering the node. -/
theorem mem_dependants (edges : EdgeList) (x d : reference) :
    d ∈ Dependants edges x ↔ (d, x) ∈ edges := by
  simp only [Dependants, List.mem_map, List.mem_filter, beq_iff_eq]
  constructor
  · rintro ⟨e, ⟨he, h2⟩, h1⟩
    have : e = (d, x) := by
      cases e
      simp_all
    rw [this] at he
    exact he
  · intro h
    exact ⟨(d, x), ⟨h, rfl⟩, rfl⟩

/-- Helper: the update loop attempts every listed dependant in order,
whatever the individual Update results are. -/
theorem updateLoop_calls_fst (edges : EdgeList) (st : reference → Value)
    (updRes : reference → Option String) (l : List reference) :
    (updateLoop edges st updRes l).1.map Prod.fst = l := by
  induction l with
  | nil => rfl
  | cons d ds ih =>
    simp only [updateLoop]
    cases updRes d <;> simp [ih]

/-- Helper: every Update invocation of the loop hands the dependant an
EvalContext built from that dependant's own direct dependencies. -/
theorem updateLoop_ectx (edges : EdgeList) (st : reference → Value)
    (updRes : reference → Option String) (l : List reference) (d : reference) (e : EvalContext)
    (h : (d, e) ∈ (updateLoop edges st updRes l).1) :
    e = setFunctions (BuildEvalContext st (Dependencies edges d)) := by
  induction l with
  | nil => simp [updateLoop] at h
  | cons a as ih =>
    simp only [updateLoop] at h
    rcases hu : updRes a with _ | msg <;> rw [hu] at h <;>
      simp only [List.mem_cons] at h <;> rcases h with h | h
    · obtain ⟨h1, h2⟩ := Prod.ext_iff.mp h
      subst h1
      exact h2
    · exact ih h
    · obtain ⟨h1, h2⟩ := Prod.ext_iff.mp h
      subst h1
      exact h2
    · exact ih h

/-- C2: for a node X drained from the updated set during a refresh cycle,
Update is invoked exactly on the direct dependants of X — a node receives
an Update for X precisely when it has an edge to X, so propagation is one
hop — and each invocation receives an EvalContext built from that
dependant's own direct dependencies' current states. -/
theorem refresh_updates_direct_dependants (edges : EdgeList) (st : reference → Value)
    (updRes : reference → Option String) (x : reference) :
    ((refreshStep edges st updRes x).1.map Prod.fst = Dependants edges x) ∧
    (∀ d, d ∈ (refreshStep edges st updRes x).1.map Prod.fst ↔ (d, x) ∈ edges) ∧
    (∀ d e, (d, e) ∈ (refreshStep edges st updRes x).1 →
      e = setFunctions (BuildEvalContext st (Dependencies edges d))) := by
  have h1 : (refreshStep edges st updRes x).1.map Prod.fst = Dependants edges x :=
    updateLoop_calls_fst edges st updRes (Dependants edges x)
  refine ⟨h1, ?_, ?_⟩
  · intro d
    rw [h1]
    exact mem_dependants edges x d
  · intro d e h
    exact updateLoop_ectx edges st updRes (Dependants edges x) d e h

/-- Witness for C2 on the spec's linear chain (f depends on s, k depends
on f): a notification from s drives exactly one Update, on f, with f's
own dependency state snapshot; k is not updated in that cycle. -/
theorem refresh_updates_direct_dependants_witness :
    (refreshStep [(["filter", "f"], ["source", "s"]), (["sink", "k"], ["filter", "f"])]
        (fun _ => 7) (fun _ => none) ["source", "s"]).1.map Prod.fst =
      Dependants [(["filter", "f"], ["source", "s"]), (["sink", "k"], ["filter", "f"])]
        ["source", "s"] ∧
    (some { vars := [("source.s", 7)], functions := ["concat"] } : EvalContext) =
      setFunctions (BuildEvalContext (fun _ => 7)
        (Dependencies [(["filter", "f"], ["source", "s"]), (["sink", "k"], ["filter", "f"])]
          ["filter", "f"])) :=
  ⟨(refresh_updates_direct_dependants
      [(["filter", "f"], ["source", "s"]), (["sink", "k"], ["filter", "f"])]
      (fun _ => 7) (fun _ => none) ["source", "s"]).1,
   (refresh_updates_direct_dependants
      [(["filter", "f"], ["source", "s"]), (["sink", "k"], ["filter", "f"])]
      (fun _ => 7) (fun _ => none) ["source", "s"]).2.2 ["filter", "f"]
      (some { vars := [("source.s", 7)], functions := ["concat"] }) (by decide)⟩

/-- Helper: the arbiter loop returns exactly when a cancellation event
occurs, regardless of the update results. -/
theorem arbiterLoop_fst (edges : EdgeList) (st : reference → Value)
    (updRes : reference → Option String) (events : List RunEvent) :
    (arbiterLoop edges st updRes events).1 = events.any isCancel := by
  induction events with
  | nil => rfl
  | cons e rest ih =>
    cases e with
    | cancel => simp [arbiterLoop, isCancel]
    | refresh xs => simp [arbiterLoop, isCancel, ih]

/-- C5: an error returned by a worker's component Run or by a dependant's
Update during Run is logged and never propagated — Run's return is the
same whatever the worker and Update results are, it returns exactly on
context cancellation, and within every refresh cycle each drained node's
dependants are all attempted whatever the Update errors are. -/
theorem run_errors_not_propagated (edges : EdgeList) (st : reference → Value)
    (workerRes workerRes' updRes updRes' : reference → Option String)
    (workers : List reference) (events : List RunEvent) :
    ((runModel edges st workerRes updRes workers events).1 =
      (runModel edges st workerRes' updRes' workers events).1) ∧
    ((runModel edges st workerRes updRes workers events).1 = events.any isCancel) ∧
    (∀ x, (refreshStep edges st updRes x).1.map Prod.fst = Dependants edges x) := by
  have hm : ∀ (wr ur : reference → Option String),
      (runModel edges st wr ur workers events).1 = (arbiterLoop edges st ur events).1 := by
    intro wr ur
    rfl
  refine ⟨?_, ?_, ?_⟩
  · rw [hm workerRes updRes, hm workerRes' updRes', arbiterLoop_fst, arbiterLoop_fst]
  · rw [hm workerRes updRes, arbiterLoop_fst]
  · intro x
    exact updateLoop_calls_fst edges st updRes (Dependants edges x)

/-- Helper: when no registered reference is a leading prefix of the
traversal, the longest-prefix match is empty. -/
theorem bestMatch_none (nt : List reference) (t : Traversal)
    (h : ∀ r ∈ nt, refMatches r t = false) :
    bestMatch nt t = none := by
  induction nt with
  | nil => rfl
  | cons r rs ih =>
    have hr := h r (List.mem_cons_self r rs)
    have hrest := ih (fun r' hr' => h r' (List.mem_cons_of_mem r hr'))
    simp [bestMatch, hr, hrest]

/-- C8: a traversal for which no registered reference is a prefix makes
the nametable lookup return nil with no diagnostic; the edge-building
pass adds no edge for it, leaves the diagnostics as they were, and
continues with the remaining traversals. -/
theorem unresolved_traversal_silent (nt : List reference)
    (shapeCheck : reference → Traversal → List HclDiag) (nodes : List reference)
    (src : reference) (es : EdgeList) (ds : List HclDiag) (t : Traversal)
    (rest : List Traversal)
    (h : ∀ r ∈ nt, refMatches r t = false) :
    LookupTraversal nt shapeCheck t = (none, []) ∧
    edgeStep nt shapeCheck nodes src (es, ds) t = (es, ds) ∧
    (t :: rest).foldl (edgeStep nt shapeCheck nodes src) (es, ds) =
      rest.foldl (edgeStep nt shapeCheck nodes src) (es, ds) := by
  have hbm := bestMatch_none nt t h
  have hlk : LookupTraversal nt shapeCheck t = (none, []) := by
    simp [LookupTraversal, hbm]
  have hstep : edgeStep nt shapeCheck nodes src (es, ds) t = (es, ds) := by
    simp [edgeStep, hlk]
  refine ⟨hlk, hstep, ?_⟩
  simp [List.foldl_cons, hstep]

/-- Witness for C8: the spec's example traversal foo.bar.baz with no
component named foo or foo.bar registered. -/
theorem unresolved_traversal_silent_witness :
    LookupTraversal [["source", "s"], ["filter", "f"]] (fun _ _ => [])
        ["foo", "bar", "baz"] = (none, []) ∧
    edgeStep [["source", "s"], ["filter", "f"]] (fun _ _ => []) [["source", "s"]]
        ["filter", "f"] ([], []) ["foo", "bar", "baz"] = ([], []) ∧
    ([["foo", "bar", "baz"]] : List Traversal).foldl
        (edgeStep [["source", "s"], ["filter", "f"]] (fun _ _ => []) [["source", "s"]]
          ["filter", "f"]) ([], []) =
      ([] : List Traversal).foldl
        (edgeStep [["source", "s"], ["filter", "f"]] (fun _ _ => []) [["source", "s"]]
          ["filter", "f"]) ([], []) :=
  unresolved_traversal_silent [["source", "s"], ["filter", "f"]] (fun _ _ => [])
    [["source", "s"]] ["filter", "f"] [] [] ["foo", "bar", "baz"] [] (by decide)

/-- C1 counterexample: with an initialized node listed before an
uninitialized one, Run returns the "not initialized" error but a worker
has already been started, refuting "Run returns an error and no worker
goroutine is started". -/
theorem run_startup_counterexample :
    (⟨["b"], ⟨"b", [], Body.mk [] []⟩, none⟩ : componentNode).raw = none ∧
    (⟨["b"], ⟨"b", [], Body.mk [] []⟩, none⟩ : componentNode) ∈
      ([⟨["a"], ⟨"a", [], Body.mk [] []⟩, some ⟨1⟩⟩,
        ⟨["b"], ⟨"b", [], Body.mk [] []⟩, none⟩] : List componentNode) ∧
    runStartup
        [⟨["a"], ⟨"a", [], Body.mk [] []⟩, some ⟨1⟩⟩,
         ⟨["b"], ⟨"b", [], Body.mk [] []⟩, none⟩] =
      [RunEvt.lock, RunEvt.startWorker ["a"],
        RunEvt.errReturn "componentNode \"b\" not initialized"] := by
  refine ⟨rfl, ?_, rfl⟩
  exact List.mem_cons_of_mem _ (List.mem_cons_self _ _)

/-- Helper: when every node is initialized, the startup loop starts one
worker per node in order and then releases the lock. -/
theorem startLoop_all_init (nodes : List componentNode)
    (h : ∀ cn ∈ nodes, cn.raw ≠ none) :
    startLoop nodes = nodes.map (fun cn => RunEvt.startWorker cn.ref) ++ [RunEvt.unlock] := by
  induction nodes with
  | nil => rfl
  | cons cn rest ih =>
    have hcn := h cn (List.mem_cons_self cn rest)
    rcases hr : cn.raw with _ | c
    · exact absurd hr hcn
    · have := ih (fun c' hc' => h c' (List.mem_cons_of_mem cn hc'))
      simp [startLoop, hr, this]

/-- Helper: when some node is uninitialized, the startup loop starts a
worker for each node of the longest initialized prefix, then returns an
error; the lock is never released. -/
theorem startLoop_some_nil (nodes : List componentNode)
    (h : ∃ cn ∈ nodes, cn.raw = none) :
    ∃ m, startLoop nodes =
      (nodes.takeWhile (fun c => c.raw.isSome)).map (fun cn => RunEvt.startWorker cn.ref) ++
        [RunEvt.errReturn m] := by
  induction nodes with
  | nil => simp at h
  | cons cn rest ih =>
    rcases hr : cn.raw with _ | c
    · refine ⟨"componentNode \"" ++ reference.String cn.ref ++ "\" not initialized", ?_⟩
      simp [startLoop, List.takeWhile_cons, hr]
    · obtain ⟨d, hd, hdn⟩ := h
      rcases List.mem_cons.mp hd with hdc | hdr
      · rw [hdc] at hdn
        rw [hdn] at hr
        cases hr
      · obtain ⟨m, hm⟩ := ih ⟨d, hdr, hdn⟩
        refine ⟨m, ?_⟩
        simp [startLoop, List.takeWhile_cons, hr, hm]

/-- C1 (amended): when every node is initialized, Run starts exactly one
worker per node, in node order, before releasing the graph lock; when
some node's raw component is nil, Run returns an error having started
workers exactly for the nodes preceding the first uninitialized one — no
worker is started for that node or any later node (and the lock is not
released on that path). -/
theorem run_startup_amended (nodes : List componentNode) :
    ((∀ cn ∈ nodes, cn.raw ≠ none) →
      runStartup nodes =
        RunEvt.lock ::
          (nodes.map (fun cn => RunEvt.startWorker cn.ref) ++ [RunEvt.unlock])) ∧
    ((∃ cn ∈ nodes, cn.raw = none) →
      ∃ m, runStartup nodes =
        RunEvt.lock ::
          ((nodes.takeWhile (fun c => c.raw.isSome)).map
              (fun cn => RunEvt.startWorker cn.ref) ++
            [RunEvt.errReturn m])) := by
  constructor
  · intro h
    rw [runStartup, startLoop_all_init nodes h]
  · intro h
    obtain ⟨m, hm⟩ := startLoop_some_nil nodes h
    exact ⟨m, by rw [runStartup, hm]⟩

/-- Witness for C1's amended statement: a fully initialized graph starts
one worker per node and unlocks. -/
theorem run_startup_amended_witness :
    runStartup [⟨["a"], ⟨"a", [], Body.mk [] []⟩, some ⟨1⟩⟩] =
      [RunEvt.lock, RunEvt.startWorker ["a"], RunEvt.unlock] := by
  have h := (run_startup_amended [⟨["a"], ⟨"a", [], Body.mk [] []⟩, some ⟨1⟩⟩]).1 (by
    intro cn hcn
    rw [List.mem_singleton] at hcn
    subst hcn
    simp)
  simpa using h

/-- Helper: setting a node's raw component does not change the node
references. -/
theorem setRaw_refs (comps : List componentNode) (r : reference) (c : Component) :
    (setRaw comps r c).map (fun cn => cn.ref) = comps.map (fun cn => cn.ref) := by
  induction comps with
  | nil => rfl
  | cons cn rest ih =>
    by_cases h : (cn.ref == r) = true <;> simp [setRaw, h, ih]

/-- Helper: the build walk does not change the node references. -/
theorem buildWalk_refs (edges : EdgeList)
    (builder : String → EvalContext → Block → Except String Component)
    (order : List reference) :
    ∀ (comps : List componentNode) (calls : List reference),
      (buildWalk edges builder order comps calls).1.map (fun cn => cn.ref) =
        comps.map (fun cn => cn.ref) := by
  induction order with
  | nil => intro comps calls; rfl
  | cons r rest ih =>
    intro comps calls
    simp only [buildWalk]
    rcases hf : comps.find? (fun c => c.ref == r) with _ | cn
    · simp only [hf]
      exact ih comps calls
    · simp only [hf]
      rcases hb : builder (reference.String (componentID cn))
        (setFunctions (BuildEvalContext (stateOf comps) (Dependencies edges r))) cn.block with
        e | rc
      · simp only [hb]
      · simp only [hb]
        rw [ih (setRaw comps r rc) (calls ++ [r]), setRaw_refs]

/-- Helper: a reference occurs in the projected reference list iff some
node carries it. -/
theorem contains_map_ref (comps : List componentNode) (r : reference) :
    (comps.map (fun cn => cn.ref)).contains r = true ↔ ∃ c ∈ comps, c.ref = r := by
  constructor
  · intro h
    obtain ⟨c, hc, he⟩ := List.mem_map.mp (List.mem_of_elem_eq_true h)
    exact ⟨c, hc, he⟩
  · rintro ⟨c, hc, he⟩
    exact List.elem_eq_true_of_mem (List.mem_map.mpr ⟨c, hc, he⟩)

/-- Helper: when the build walk succeeds, the builder invocations are
exactly the walk-order entries that name a node of the graph, in
order. -/
theorem buildWalk_calls (edges : EdgeList)
    (builder : String → EvalContext → Block → Except String Component)
    (order : List reference) :
    ∀ (comps : List componentNode) (calls : List reference),
      (buildWalk edges builder order comps calls).2.2 = none →
      (buildWalk edges builder order comps calls).2.1 =
        calls ++ order.filter (fun r => (comps.map (fun cn => cn.ref)).contains r) := by
  induction order with
  | nil => intro comps calls _; simp [buildWalk]
  | cons r rest ih =>
    intro comps calls hok
    simp only [buildWalk] at hok ⊢
    rcases hf : comps.find? (fun c => c.ref == r) with _ | cn
    · simp only [hf] at hok ⊢
      have hnc : (comps.map (fun cn => cn.ref)).contains r = false := by
        rw [Bool.eq_false_iff]
        intro hc
        obtain ⟨c, hc', he⟩ := (contains_map_ref comps r).mp hc
        rw [List.find?_eq_none] at hf
        exact hf c hc' (by simp [he])
      rw [ih comps calls hok]
      simp only [List.filter_cons, hnc]
      simp
    · simp only [hf] at hok ⊢
      have hcm : (comps.map (fun cn => cn.ref)).contains r = true := by
        apply (contains_map_ref comps r).mpr
        refine ⟨cn, List.mem_of_find?_eq_some hf, ?_⟩
        have := List.find?_some hf
        simpa using this
      rcases hb : builder (reference.String (componentID cn))
        (setFunctions (BuildEvalContext (stateOf comps) (Dependencies edges r))) cn.block with
        e | rc
      · simp only [hb] at hok
        cases hok
      · simp only [hb] at hok ⊢
        rw [ih (setRaw comps r rc) (calls ++ [r]) hok, setRaw_refs]
        simp only [List.filter_cons, hcm]
        simp

/-- Helper: rawSet on a cons whose head matches. -/
theorem rawSet_cons_pos (cn : componentNode) (rest : List componentNode) (r : reference)
    (h : (cn.ref == r) = true) : rawSet (cn :: rest) r = cn.raw.isSome := by
  simp [rawSet, List.find?_cons, h]

/-- Helper: rawSet on a cons whose head does not match. -/
theorem rawSet_cons_neg (cn : componentNode) (rest : List componentNode) (r : reference)
    (h : (cn.ref == r) = false) : rawSet (cn :: rest) r = rawSet rest r := by
  simp [rawSet, List.find?_cons, h]

/-- Helper: setRaw on a cons whose head matches. -/
theorem setRaw_cons_pos (cn : componentNode) (rest : List componentNode) (r : reference)
    (c : Component) (h : (cn.ref == r) = true) :
    setRaw (cn :: rest) r c = { cn with raw := some c } :: rest := by
  simp [setRaw, h]

/-- Helper: setRaw on a cons whose head does not match. -/
theorem setRaw_cons_neg (cn : componentNode) (rest : List componentNode) (r : reference)
    (c : Component) (h : (cn.ref == r) = false) :
    setRaw (cn :: rest) r c = cn :: setRaw rest r c := by
  simp [setRaw, h]

/-- Helper: a node whose raw component is set stays set when another
node's raw component is assigned. -/
theorem setRaw_rawSet_mono (r r' : reference) (c : Component) :
    ∀ comps : List componentNode,
      rawSet comps r = true → rawSet (setRaw comps r' c) r = true := by
  intro comps
  induction comps with
  | nil => intro h; simp [rawSet] at h
  | cons cn rest ih =>
    intro h
    cases hm : (cn.ref == r') with
    | true =>
      rw [setRaw_cons_pos cn rest r' c hm]
      cases hn : (cn.ref == r) with
      | true =>
        rw [rawSet_cons_pos cn rest r hn] at h
        rw [rawSet_cons_pos { cn with raw := some c } rest r hn]
        rfl
      | false =>
        rw [rawSet_cons_neg cn rest r hn] at h
        rw [rawSet_cons_neg { cn with raw := some c } rest r hn]
        exact h
    | false =>
      rw [setRaw_cons_neg cn rest r' c hm]
      cases hn : (cn.ref == r) with
      | true =>
        rw [rawSet_cons_pos cn rest r hn] at h
        rw [rawSet_cons_pos cn _ r hn]
        exact h
      | false =>
        rw [rawSet_cons_neg cn rest r hn] at h
        rw [rawSet_cons_neg cn _ r hn]
        exact ih h

/-- Helper: assigning the found node's raw component makes it set. -/
theorem setRaw_sets (r : reference) (rc : Component) :
    ∀ (comps : List componentNode) (cn : componentNode),
      comps.find? (fun c => c.ref == r) = some cn →
      rawSet (setRaw comps r rc) r = true := by
  intro comps
  induction comps with
  | nil => intro cn h; simp at h
  | cons a rest ih =>
    intro cn h
    cases ha : (a.ref == r) with
    | true =>
      rw [setRaw_cons_pos a rest r rc ha]
      rw [rawSet_cons_pos { a with raw := some rc } rest r ha]
      rfl
    | false =>
      rw [List.find?_cons_of_neg _ (by simp [ha])] at h
      rw [setRaw_cons_neg a rest r rc ha]
      rw [rawSet_cons_neg a _ r ha]
      exact ih cn h

/-- Helper: the build walk never unsets a raw component. -/
theorem buildWalk_raw_mono (edges : EdgeList)
    (builder : String → EvalContext → Block → Except String Component)
    (order : List reference) (r : reference) :
    ∀ (comps : List componentNode) (calls : List reference),
      rawSet comps r = true →
      rawSet (buildWalk edges builder order comps calls).1 r = true := by
  induction order with
  | nil => intro comps calls h; exact h
  | cons q rest ih =>
    intro comps calls h
    simp only [buildWalk]
    rcases hf : comps.find? (fun c => c.ref == q) with _ | cn
    · simp only [hf]
      exact ih comps calls h
    · simp only [hf]
      rcases hb : builder (reference.String (componentID cn))
        (setFunctions (BuildEvalContext (stateOf comps) (Dependencies edges q))) cn.block with
        e | rc
      · simp only [hb]
        exact h
      · simp only [hb]
        exact ih (setRaw comps q rc) (calls ++ [q]) (setRaw_rawSet_mono r q rc comps h)

/-- Helper: when the build walk succeeds, every walk-order entry that
names a node of the graph ends with its raw component set. -/
theorem buildWalk_raw_covers (edges : EdgeList)
    (builder : String → EvalContext → Block → Except String Component)
    (order : List reference) :
    ∀ (comps : List componentNode) (calls : List reference),
      (buildWalk edges builder order comps calls).2.2 = none →
      ∀ r ∈ order, (comps.map (fun cn => cn.ref)).contains r = true →
      rawSet (buildWalk edges builder order comps calls).1 r = true := by
  induction order with
  | nil => intro comps calls _ r hr; simp at hr
  | cons q rest ih =>
    intro comps calls hok r hr hcont
    simp only [buildWalk] at hok ⊢
    rcases hf : comps.find? (fun c => c.ref == q) with _ | cn
    · simp only [hf] at hok ⊢
      rcases List.mem_cons.mp hr with hq | hrest
      · exfalso
        subst hq
        obtain ⟨c, hc, he⟩ := (contains_map_ref comps r).mp hcont
        rw [List.find?_eq_none] at hf
        exact hf c hc (by simp [he])
      · exact ih comps calls hok r hrest hcont
    · simp only [hf] at hok ⊢
      rcases hb : builder (reference.String (componentID cn))
        (setFunctions (BuildEvalContext (stateOf comps) (Dependencies edges q))) cn.block with
        e | rc
      · simp only [hb] at hok
        cases hok
      · simp only [hb] at hok ⊢
        rcases List.mem_cons.mp hr with hq | hrest
        · subst hq
          exact buildWalk_raw_mono edges builder rest r (setRaw comps r rc) (calls ++ [r])
            (setRaw_sets r rc comps cn hf)
        · have hcont' : ((setRaw comps q rc).map (fun cn => cn.ref)).contains r = true := by
            rw [setRaw_refs]
            exact hcont
          exact ih (setRaw comps q rc) (calls ++ [q]) hok r hrest hcont'

/-- Helper: in a duplicate-free list every member has count one. -/
theorem count_one_of_nodup_mem (r : reference) :
    ∀ l : List reference, l.Nodup → r ∈ l → l.count r = 1 := by
  intro l
  induction l with
  | nil => intro _ h; simp at h
  | cons a rest ih =>
    intro hnd hmem
    rw [List.count_cons]
    rcases List.mem_cons.mp hmem with hq | hrest
    · subst hq
      have hnot : r ∉ rest := (List.nodup_cons.mp hnd).1
      rw [List.count_eq_zero.mpr hnot]
      simp
    · have ha : ¬(a == r) = true := by
        intro hab
        have : a = r := by simpa using hab
        subst this
        exact (List.nodup_cons.mp hnd).1 hrest
      rw [ih (List.nodup_cons.mp hnd).2 hrest]
      simp [ha]

/-- Helper: in a successful graph-building phase the builder runs exactly
once per node and leaves every node's raw component set. -/
theorem loadGraphPhase_builder_once (f : FlowObj) (ext : LoadExt) (d3 : List HclDiag)
    (hnd : ext.walkOrder.Nodup)
    (hcov : ∀ r ∈ (loadGraphPhase f ext d3).flow.comps.map (fun c => c.ref), r ∈ ext.walkOrder)
    (hok : (loadGraphPhase f ext d3).err = none) :
    ∀ r ∈ (loadGraphPhase f ext d3).flow.comps.map (fun c => c.ref),
      (loadGraphPhase f ext d3).buildCalls.count r = 1 ∧
      rawSet (loadGraphPhase f ext d3).flow.comps r = true := by
  intro r hr
  simp only [loadGraphPhase] at hcov hok hr ⊢
  set f1 := addComponents f ext.blocks with hf1
  set ed := edgePass f1.nametable ext.shapeCheck (List.map (fun c => c.ref) f1.comps) f1.comps
    (f1.edges, d3) with hed
  set bw := buildWalk (Reduce ed.1) ext.builder ext.walkOrder f1.comps [] with hbw
  cases hE : hasErrorsH ed.2 with
  | true => simp [hE] at hok
  | false =>
    simp only [hE] at hcov hok hr ⊢
    simp only [Bool.false_eq_true, if_false] at hcov hok hr ⊢
    rcases hB : bw.2.2 with _ | e
    · simp only [hB] at hcov hok hr ⊢
      have hrefs : bw.1.map (fun cn => cn.ref) = f1.comps.map (fun cn => cn.ref) := by
        rw [hbw]
        exact buildWalk_refs (Reduce ed.1) ext.builder ext.walkOrder f1.comps []
      have hrf1 : r ∈ f1.comps.map (fun cn => cn.ref) := by
        rw [← hrefs]
        exact hr
      have hcontains : (f1.comps.map (fun cn => cn.ref)).contains r = true :=
        List.elem_eq_true_of_mem hrf1
      have hwalk : r ∈ ext.walkOrder := hcov r hr
      constructor
      · have hcalls : bw.2.1 =
            [] ++ ext.walkOrder.filter
              (fun q => (f1.comps.map (fun cn => cn.ref)).contains q) := by
          rw [hbw]
          exact buildWalk_calls (Reduce ed.1) ext.builder ext.walkOrder f1.comps [] (hbw ▸ hB)
        rw [hcalls]
        simp only [List.nil_append]
        rw [List.count_filter hcontains]
        exact count_one_of_nodup_mem r ext.walkOrder hnd hwalk
      · rw [hbw]
        exact buildWalk_raw_covers (Reduce ed.1) ext.builder ext.walkOrder f1.comps []
          (hbw ▸ hB) r hwalk hcontains
    · simp [hB] at hok

/-- C6: when Load returns nil, the external builder has been invoked
exactly once for every node in the graph — the walk order covering every
node once, per the spec's WalkTopological contract — and every node's raw
component is non-nil. -/
theorem load_builder_once (f : FlowObj) (ext : LoadExt)
    (hnd : ext.walkOrder.Nodup)
    (hcov : ∀ r ∈ (Load f ext).flow.comps.map (fun c => c.ref), r ∈ ext.walkOrder)
    (hok : (Load f ext).err = none) :
    ∀ r ∈ (Load f ext).flow.comps.map (fun c => c.ref),
      (Load f ext).buildCalls.count r = 1 ∧
      rawSet (Load f ext).flow.comps r = true := by
  rcases hre : ext.readRes with e | u
  · exfalso
    have hioerr : (Load f ext).err = some (LoadErr.readErr e) := by
      simp [Load, hre]
    rw [hioerr] at hok
    cases hok
  · by_cases h1 : hasErrorsH ext.parseDiags = true
    · exfalso
      have hderr : (Load f ext).err = some (LoadErr.diagsErr ext.parseDiags) := by
        simp [Load, hre, h1]
      rw [hderr] at hok
      cases hok
    · by_cases h2 : hasErrorsH (ext.parseDiags ++ ext.decodeDiags) = true
      · exfalso
        have hderr : (Load f ext).err =
            some (LoadErr.diagsErr (ext.parseDiags ++ ext.decodeDiags)) := by
          simp [Load, hre, h1, h2]
        rw [hderr] at hok
        cases hok
      · by_cases h3 :
          hasErrorsH (ext.parseDiags ++ (ext.decodeDiags ++ ext.contentDiags)) = true
        · exfalso
          have hderr : (Load f ext).err =
              some (LoadErr.diagsErr (ext.parseDiags ++ (ext.decodeDiags ++ ext.contentDiags))) := by
            simp [Load, hre, h1, h2, h3]
          rw [hderr] at hok
          cases hok
        · have hL : Load f ext =
              loadGraphPhase f ext (ext.parseDiags ++ (ext.decodeDiags ++ ext.contentDiags)) := by
            simp [Load, hre, h1, h2, h3]
          rw [hL] at hcov hok ⊢
          exact loadGraphPhase_builder_once f ext _ hnd hcov hok

/-- Witness for C6: a one-component configuration loads successfully; the
builder ran exactly once for the node and its raw component is set. -/
theorem load_builder_once_witness :
    (Load emptyFlow
      { readRes := .ok (), parseDiags := [], decodeDiags := [], contentDiags := [],
        blocks := [⟨"source", ["s"], Body.mk [] []⟩],
        shapeCheck := fun _ _ => [], walkOrder := [["source", "s"]],
        builder := fun _ _ _ => .ok ⟨5⟩ }).buildCalls.count ["source", "s"] = 1 ∧
    rawSet (Load emptyFlow
      { readRes := .ok (), parseDiags := [], decodeDiags := [], contentDiags := [],
        blocks := [⟨"source", ["s"], Body.mk [] []⟩],
        shapeCheck := fun _ _ => [], walkOrder := [["source", "s"]],
        builder := fun _ _ _ => .ok ⟨5⟩ }).flow.comps ["source", "s"] = true :=
  load_builder_once emptyFlow
    { readRes := .ok (), parseDiags := [], decodeDiags := [], contentDiags := [],
      blocks := [⟨"source", ["s"], Body.mk [] []⟩],
      shapeCheck := fun _ _ => [], walkOrder := [["source", "s"]],
      builder := fun _ _ _ => .ok ⟨5⟩ }
    (by simp)
    (by decide)
    (by decide)
    ["source", "s"] (by decide)
